import Mathlib

/-!
Shallow embedding of the Quote_Manager_CLI_Peter repository.

Source files embedded:
  - src/quote_manager_cli_peter/utils.py  : lower_data, load_data, query_existing_data
  - src/Quote_Manager_CLI_Peter/src/cli.py : import_quotes, generate, add, list_quotes
  - src/Quote_Manager_CLI_Peter/src/models.py : the Quote table row

Python dictionaries are modelled as insertion-ordered association lists with
Python dict semantics (update keeps the position of an existing key, lookup
returns the first binding, equality compares the induced finite maps).
JSON values are modelled by the inductive JVal; values reachable inside
records after loading are strings or the integers assigned by the
deduplication step, modelled by PyVal.  Fallible Python code (raised
exceptions) is modelled with Except.  The random primitives take an explicit
index-choice function so that sampling is deterministic given that function.
-/

namespace QuoteManager

/-- A Python value that can appear as a record field after loading:
either a JSON string or an integer id assigned by the dedup step. -/
inductive PyVal where
  | str : String → PyVal
  | int : Int → PyVal
  deriving DecidableEq

/-- A Python dict with string keys, as an insertion-ordered association list. -/
abbrev Dict := List (String × PyVal)

/-- Python `d[k]`: the binding of the first entry with key `k`. -/
def alGet {α : Type} (d : List (String × α)) (k : String) : Option α :=
  match d with
  | [] => none
  | (k2, v) :: rest => if k2 = k then some v else alGet rest k

/-- Python `d[k] = v`: replace the first binding of `k` in place, else append. -/
def alSet {α : Type} (d : List (String × α)) (k : String) (v : α) : List (String × α) :=
  match d with
  | [] => [(k, v)]
  | (k2, v2) :: rest => if k2 = k then (k2, v) :: rest else (k2, v2) :: alSet rest k v

/-- Python dict equality: the two dicts agree as finite maps. -/
def dictEq (a b : Dict) : Bool :=
  a.all (fun p => decide (alGet a p.1 = alGet b p.1)) &&
    b.all (fun p => decide (alGet a p.1 = alGet b p.1))

/-- Python `x in l`, membership by equality. -/
def memB {α : Type} [DecidableEq α] (x : α) (l : List α) : Bool :=
  l.any (fun y => decide (y = x))

/-- A parsed JSON value (the result of json.load). -/
inductive JVal where
  | jstr : String → JVal
  | jnum : Int → JVal
  | jbool : Bool → JVal
  | jnull : JVal
  | jarr : List JVal → JVal
  | jobj : List (String × JVal) → JVal

/-- One character of Python str.lower, on the ASCII fragment the data
exercises. -/
def lowerChar (c : Char) : Char :=
  if 65 ≤ c.toNat ∧ c.toNat ≤ 90 then Char.ofNat (c.toNat + 32) else c

/-- Python str.lower. -/
def pyLower (s : String) : String := String.mk (s.data.map lowerChar)

/-- A lower-cased record produced by lower_data: string keys to string values. -/
abbrev StrDict := List (String × String)

/-- The loader output: category name to list of lower-cased records. -/
abbrev Mapping := List (String × List StrDict)

/-- utils.lower_data, innermost loop: build `item` from one JSON record.
`item[key.lower()] = record[key].lower()`; a non-string value raises
AttributeError (value.lower does not exist). -/
def lowerRecord (r : List (String × JVal)) (item : StrDict) : Except String StrDict :=
  match r with
  | [] => Except.ok item
  | (k, v) :: rest =>
    match v with
    | JVal.jstr s => lowerRecord rest (alSet item (pyLower k) (pyLower s))
    | _ => Except.error "AttributeError: value has no attribute lower"

/-- utils.lower_data, middle loop over the records of one category.
Faithful to the source indentation: `new_data[lower_category] = item_list`
sits inside the record loop, so a category with no records is never written
into `new_data`. -/
def lowerRecords (lc : String) (records : List JVal) (newData : Mapping)
    (itemList : List StrDict) : Except String Mapping :=
  match records with
  | [] => Except.ok newData
  | r :: rest =>
    match r with
    | JVal.jobj entries =>
      match lowerRecord entries [] with
      | Except.error e => Except.error e
      | Except.ok item =>
        lowerRecords lc rest (alSet newData lc (itemList ++ [item])) (itemList ++ [item])
    | _ => Except.error "AttributeError: record has no attribute keys"

/-- utils.lower_data, outer loop over categories. A category value that is
not a JSON array cannot be iterated as records. -/
def lowerCats (data : List (String × JVal)) (newData : Mapping) : Except String Mapping :=
  match data with
  | [] => Except.ok newData
  | (category, records) :: rest =>
    match records with
    | JVal.jarr rs =>
      match lowerRecords (pyLower category) rs newData [] with
      | Except.error e => Except.error e
      | Except.ok nd => lowerCats rest nd
    | _ => Except.error "TypeError: records object is not iterable as records"

/-- utils.lower_data: lower-case all keys and values of the loaded JSON data. -/
def lower_data (data : List (String × JVal)) : Except String Mapping :=
  lowerCats data []

/-- Python str.endswith. -/
def pyEndsWith (s pat : String) : Bool := List.isSuffixOf pat.data s.data

/-- A file handed to utils.load_data: its path, whether it exists on disk,
and its parsed JSON content. -/
structure PyFile where
  path : String
  onDisk : Bool
  content : JVal

/-- The ways utils.load_data fails: the two explicit ValueError raises and
any exception escaping from json.load or lower_data. -/
inductive LoadError where
  | invalidFormat
  | invalidPath
  | runtimeError : String → LoadError
  deriving DecidableEq

/-- utils.load_data: check existence first, then the `.json` suffix, then
parse and lower-case. A non-object top level fails inside lower_data. -/
def load_data (f : PyFile) : Except LoadError Mapping :=
  if f.onDisk then
    if pyEndsWith f.path ".json" then
      match f.content with
      | JVal.jobj entries =>
        match lower_data entries with
        | Except.ok m => Except.ok m
        | Except.error e => Except.error (LoadError.runtimeError e)
      | _ => Except.error (LoadError.runtimeError "AttributeError: data is not a dict")
    else Except.error LoadError.invalidFormat
  else Except.error LoadError.invalidPath

/-- A row of the quotes table (models.Quote, timestamps omitted: they are
assigned by the store and never read by this core). -/
structure Quote where
  id : Int
  category : String
  author : String
  quote : String
  deriving DecidableEq

/-- The database handle passed around by the commands: either a live session
holding the current table, or any non-session object. -/
inductive DbHandle where
  | session : List Quote → DbHandle
  | invalid : DbHandle

/-- The `data` argument of query_existing_data: either a dict (category to
list of record dicts) or any non-dict object. -/
inductive PyData where
  | dict : List (String × List Dict) → PyData
  | notDict : PyData

/-- The result dict returned by utils.query_existing_data. -/
structure QueryResult where
  existing_data : List Quote
  existing_ids : List Int
  record_list : List Dict
  record_ids : List PyVal
  deriving DecidableEq

/-- Flattening loop of utils.query_existing_data: walk the categories in
order, attach `quote["category"] = category` to every record, and
concatenate the per-category record lists. -/
def flattenWithCat (data : List (String × List Dict)) : List Dict :=
  (data.map (fun p => p.2.map (fun q => alSet q "category" (PyVal.str p.1)))).flatten

/-- Python `record_list.index(record)`: position of the first element equal
to the argument (the argument is always a member at the call sites). -/
def listIndex (l : List Dict) (x : Dict) : Nat :=
  match l with
  | [] => 0
  | d :: rest => if dictEq d x then 0 else listIndex rest x + 1

/-- One iteration of the id-assignment loop: the record at position `j` is
mutated to carry `id = record_list.index(record) + 1`, where the index is
computed against the current (partially mutated) list. -/
def assignStep (l : List Dict) (j : Nat) : List Dict :=
  match l.get? j with
  | none => l
  | some r => l.set j (alSet r "id" (PyVal.int (listIndex l r + 1)))

/-- Run the id-assignment loop from position `j` for `fuel` more records. -/
def assignFrom (l : List Dict) (j : Nat) : Nat → List Dict
  | 0 => l
  | fuel + 1 => assignFrom (assignStep l j) (j + 1) fuel

/-- The id-assignment loop of utils.query_existing_data:
`for record in record_list: record["id"] = record_list.index(record) + 1`. -/
def assignIds (l : List Dict) : List Dict :=
  assignFrom l 0 l.length

/-- utils.query_existing_data: validate the two arguments, flatten, assign
ids, and query the store for rows whose id is among the assigned ids. -/
def query_existing_data (data : PyData) (db : DbHandle) : Except String QueryResult :=
  match data with
  | PyData.notDict =>
    Except.error "Invalid data format. Data argument must be a dictionary"
  | PyData.dict m =>
    match db with
    | DbHandle.invalid =>
      Except.error
        "Invalid database session. Database session must be a sqlalchemy session object"
    | DbHandle.session rows =>
      let record_list := assignIds (flattenWithCat m)
      let record_ids := record_list.map (fun r => (alGet r "id").getD (PyVal.int 0))
      let existing_data := rows.filter (fun q => memB (PyVal.int q.id) record_ids)
      Except.ok
        { existing_data := existing_data
          existing_ids := existing_data.map Quote.id
          record_list := record_list
          record_ids := record_ids }

/-- Structured results echoed by the CLI commands (the dicts passed to
click.echo, keyed by their distinguishing fields). -/
inductive Res where
  | importSuccess : Nat → Res
  | dbError : String → Res
  | addSuccess : String → String → String → Res
  | addMissingArgs : Res
  | genNotFoundCatAuth : String → String → Res
  | genNotFoundCat : String → Res
  | genNotFoundAuthor : String → Res
  | genSuccess : String → String → String → Res
  | genNoQuotes : Res
  | listSuccess : List (String × String × String) → Res
  | listNoQuotes : Res
  deriving DecidableEq

/-- Python `record[k]` where a missing key raises KeyError. -/
def getField (r : Dict) (k : String) : Except String PyVal :=
  match alGet r k with
  | some v => Except.ok v
  | none => Except.error ("KeyError: " ++ k)

/-- Extract a string field for the Quote constructor: a non-string value in
a string column surfaces as a store-level error. -/
def getStrField (r : Dict) (k : String) : Except String String :=
  match alGet r k with
  | some (PyVal.str s) => Except.ok s
  | some (PyVal.int _) => Except.error ("TypeError: " ++ k)
  | none => Except.error ("KeyError: " ++ k)

/-- Extract the integer id field for the Quote constructor. -/
def getIntField (r : Dict) (k : String) : Except String Int :=
  match alGet r k with
  | some (PyVal.int i) => Except.ok i
  | some (PyVal.str _) => Except.error ("TypeError: " ++ k)
  | none => Except.error ("KeyError: " ++ k)

/-- Build the Quote row inserted by cli.import_quotes from one record dict,
reading the same four fields as the source in the same order. -/
def buildQuote (r : Dict) : Except String Quote :=
  match getStrField r "category" with
  | Except.error e => Except.error e
  | Except.ok c =>
    match getIntField r "id" with
    | Except.error e => Except.error e
    | Except.ok i =>
      match getStrField r "author" with
      | Except.error e => Except.error e
      | Except.ok a =>
        match getStrField r "quote" with
        | Except.error e => Except.error e
        | Except.ok q => Except.ok { id := i, category := c, author := a, quote := q }

/-- Insert loop of cli.import_quotes: skip records whose id is in
existing_ids, insert the rest in order, counting the inserts. -/
def importLoop (records : List Dict) (existingIds : List Int) (db : List Quote)
    (n : Nat) : Except String (List Quote × Nat) :=
  match records with
  | [] => Except.ok (db, n)
  | r :: rest =>
    match getField r "id" with
    | Except.error e => Except.error e
    | Except.ok idv =>
      if (match idv with
          | PyVal.int k => memB k existingIds
          | PyVal.str _ => false) then
        importLoop rest existingIds db n
      else
        match buildQuote r with
        | Except.error e => Except.error e
        | Except.ok q => importLoop rest existingIds (db ++ [q]) (n + 1)

/-- cli.import_quotes, from the already loaded data onwards: dedup, insert
the non-existing records, commit once (the single returned table), and echo
either the success count or the structured error result.  On any exception
nothing is committed: the original table is returned unchanged. -/
def import_quotes (data : PyData) (db : DbHandle) : List Quote × List Res :=
  let rows := match db with
    | DbHandle.session r => r
    | DbHandle.invalid => []
  match query_existing_data data db with
  | Except.error e =>
    (rows, [Res.dbError ("Error occurred during database operation: " ++ e)])
  | Except.ok res =>
    match importLoop res.record_list res.existing_ids rows 0 with
    | Except.error e =>
      (rows, [Res.dbError ("Error occurred during database operation: " ++ e)])
    | Except.ok (rows2, n) => (rows2, [Res.importSuccess n])

/-- The CLI message for each load_data failure, as surfaced by the import
command exception handler. -/
def loadErrMsg : LoadError → String
  | LoadError.invalidFormat => "Invalid file format. Only JSON files are allowed"
  | LoadError.invalidPath => "Invalid file path provided, File may not exist"
  | LoadError.runtimeError e => e

/-- Lift a loaded mapping (all string values) into the dict type consumed by
query_existing_data. -/
def toDict (m : Mapping) : List (String × List Dict) :=
  m.map (fun p => (p.1, p.2.map (fun r => r.map (fun q => (q.1, PyVal.str q.2)))))

/-- cli.import_quotes, full pipeline: load the file, then dedup and insert.
An exception from load_data is caught by the same handler. -/
def import_pipeline (f : PyFile) (db : DbHandle) : List Quote × List Res :=
  let rows := match db with
    | DbHandle.session r => r
    | DbHandle.invalid => []
  match load_data f with
  | Except.error e =>
    (rows, [Res.dbError ("Error occurred during database operation: " ++ loadErrMsg e)])
  | Except.ok m => import_quotes (PyData.dict (toDict m)) db

/-- Python truthiness of a click option value: None and the empty string are
falsy, every other string is truthy. -/
def truthy : Option String → Bool
  | none => false
  | some s => !(decide (s = ""))

/-- random.choice: uniform pick from a sequence; an empty sequence raises
IndexError. The draw is determined by the explicit index-choice function. -/
def randomChoice (pick : Nat → Nat) (pop : List Quote) : Except String Quote :=
  match pop with
  | [] => Except.error "Cannot choose from an empty sequence"
  | a :: rest =>
    Except.ok ((a :: rest).getD (pick 0 % (a :: rest).length) a)

/-- random.choices(pop, k): k independent with-replacement draws; with k > 0
an empty population raises IndexError (population[0] out of range). -/
def randomChoices (pick : Nat → Nat) (pop : List Quote) (k : Nat) :
    Except String (List Quote) :=
  match pop with
  | [] => if k = 0 then Except.ok [] else Except.error "list index out of range"
  | a :: rest =>
    Except.ok ((List.range k).map (fun i => (a :: rest).getD (pick i % (a :: rest).length) a))

/-- SELECT DISTINCT over a projected column (membership is all the commands
use of it). -/
def distinctVals (l : List String) : List String := l.dedup

/-- Tail of cli.generate: sample one quote if any row matched, else echo the
no-quotes error result. -/
def genFrom (pick : Nat → Nat) (quotes : List Quote) : List Res :=
  if quotes.isEmpty then [Res.genNoQuotes]
  else
    match randomChoice pick quotes with
    | Except.ok q => [Res.genSuccess q.quote q.category q.author]
    | Except.error e => [Res.dbError ("Error occurred during database operation: " ++ e)]

/-- cli.generate: branch on which filters are truthy, run the advisory
existence check (echoing but not returning), query the filtered rows and
sample.  The returned list is everything echoed, in order. -/
def generate (pick : Nat → Nat) (db : List Quote) (category author : Option String) :
    List Res :=
  if truthy category && truthy author then
    let c := pyLower (category.getD "")
    let a := pyLower (author.getD "")
    let allCategories := distinctVals (db.map Quote.category)
    let allAuthors := distinctVals (db.map Quote.author)
    let pre := if !(memB c allCategories) || !(memB a allAuthors) then
        [Res.genNotFoundCatAuth c a]
      else []
    let quotes := db.filter (fun q => decide (q.category = c) && decide (q.author = a))
    pre ++ genFrom pick quotes
  else if truthy category then
    let c := pyLower (category.getD "")
    let allCategories := distinctVals (db.map Quote.category)
    let pre := if !(memB c allCategories) then [Res.genNotFoundCat c] else []
    let quotes := db.filter (fun q => decide (q.category = c))
    pre ++ genFrom pick quotes
  else if truthy author then
    let a := pyLower (author.getD "")
    let allAuthors := distinctVals (db.map Quote.author)
    let pre := if !(memB a allAuthors) then [Res.genNotFoundAuthor a] else []
    let quotes := db.filter (fun q => decide (q.author = a))
    pre ++ genFrom pick quotes
  else
    genFrom pick db

/-- The advisory echoes of cli.generate alone: what the existence check
reports before the filtered query runs (same branch structure as generate). -/
def advisoryEchoes (db : List Quote) (category author : Option String) : List Res :=
  if truthy category && truthy author then
    let c := pyLower (category.getD "")
    let a := pyLower (author.getD "")
    if !(memB c (distinctVals (db.map Quote.category)))
        || !(memB a (distinctVals (db.map Quote.author))) then
      [Res.genNotFoundCatAuth c a]
    else []
  else if truthy category then
    let c := pyLower (category.getD "")
    if !(memB c (distinctVals (db.map Quote.category))) then [Res.genNotFoundCat c] else []
  else if truthy author then
    let a := pyLower (author.getD "")
    if !(memB a (distinctVals (db.map Quote.author))) then [Res.genNotFoundAuthor a] else []
  else []

/-- The match predicate of the filtered query generate runs: rows must agree
with every truthy filter after lower-casing. -/
def matchesFilter (category author : Option String) (q : Quote) : Bool :=
  (!(truthy category) || decide (q.category = pyLower (category.getD ""))) &&
    (!(truthy author) || decide (q.author = pyLower (author.getD "")))

/-- Tail of cli.list_quotes: take the 5-draw sample first, then branch on
whether the sampled list is nonempty. -/
def listFrom (pick : Nat → Nat) (pop : List Quote) : List Res :=
  match randomChoices pick pop 5 with
  | Except.error e => [Res.dbError ("Error occurred during database operation: " ++ e)]
  | Except.ok quotes =>
    if quotes.isEmpty then [Res.listNoQuotes]
    else [Res.listSuccess (quotes.map (fun q => (q.quote, q.category, q.author)))]

/-- cli.list_quotes: branch on the four filter combinations exactly as the
source does (note `author is None` versus truthiness), then sample 5 rows
with replacement before checking for emptiness. -/
def list_quotes (pick : Nat → Nat) (db : List Quote) (category author : Option String) :
    List Res :=
  if truthy category && author.isNone then
    listFrom pick (db.filter (fun q => decide (q.category = pyLower (category.getD ""))))
  else if truthy author && category.isNone then
    listFrom pick (db.filter (fun q => decide (q.author = pyLower (author.getD ""))))
  else if truthy category && truthy author then
    listFrom pick
      (db.filter (fun q =>
        decide (q.category = pyLower (category.getD "")) &&
          decide (q.author = pyLower (author.getD ""))))
  else
    listFrom pick db

/-- Autoincrement primary key assigned by the store on add. -/
def nextId (db : List Quote) : Int := (db.map Quote.id).foldr max 0 + 1

/-- cli.add: insert one lower-cased row when all three option values are
truthy, else echo the missing-arguments error and leave the store alone. -/
def add (db : List Quote) (category quote author : String) : List Quote × List Res :=
  if !(decide (quote = "")) && !(decide (category = "")) && !(decide (author = "")) then
    let q := pyLower quote
    let c := pyLower category
    let a := pyLower author
    (db ++ [{ id := nextId db, category := c, author := a, quote := q }],
      [Res.addSuccess q c a])
  else
    (db, [Res.addMissingArgs])

/-- Whether a PyVal is a string (every field value of a loader-produced
record is). -/
def isStr : PyVal → Bool
  | PyVal.str _ => true
  | PyVal.int _ => false

/-- All field values of a record are strings, as in every record the loader
hands to the dedup step. -/
def allStr (d : Dict) : Prop := ∀ p ∈ d, isStr p.2 = true

instance decAllStr (d : Dict) : Decidable (allStr d) :=
  inferInstanceAs (Decidable (∀ p ∈ d, isStr p.2 = true))

theorem alGet_alSet_self {α : Type} (d : List (String × α)) (k : String) (v : α) :
    alGet (alSet d k v) k = some v := by
  induction d with
  | nil => simp [alGet, alSet]
  | cons p rest ih =>
    by_cases h : p.1 = k
    · simp [alSet, alGet, h]
    · simp [alSet, alGet, h, ih]

theorem alGet_alSet_ne {α : Type} (d : List (String × α)) (k k2 : String) (v : α)
    (h : k2 ≠ k) : alGet (alSet d k v) k2 = alGet d k2 := by
  have hk : ¬(k = k2) := fun hk => h hk.symm
  induction d with
  | nil => simp [alGet, alSet, hk]
  | cons p rest ih =>
    rcases p with ⟨k1, v1⟩
    by_cases hp : k1 = k
    · subst hp
      simp [alSet, alGet, hk]
    · by_cases hp2 : k1 = k2
      · simp [alSet, alGet, hp, hp2, h]
      · simp [alSet, alGet, hp, hp2, ih]

theorem mem_alSet {α : Type} (d : List (String × α)) (k : String) (v : α)
    (p : String × α) (h : p ∈ alSet d k v) : p ∈ d ∨ p = (k, v) := by
  induction d with
  | nil =>
    simp [alSet] at h
    exact Or.inr h
  | cons q rest ih =>
    rcases q with ⟨k1, v1⟩
    by_cases hq : k1 = k
    · subst hq
      simp only [alSet, if_pos rfl] at h
      rcases List.mem_cons.mp h with h1 | h1
      · exact Or.inr h1
      · exact Or.inl (List.mem_cons_of_mem _ h1)
    · simp only [alSet, if_neg hq] at h
      rcases List.mem_cons.mp h with h1 | h1
      · exact Or.inl (h1 ▸ List.mem_cons_self _ _)
      · rcases ih h1 with h2 | h2
        · exact Or.inl (List.mem_cons_of_mem _ h2)
        · exact Or.inr h2

theorem alGet_mem {α : Type} (d : List (String × α)) (k : String) (v : α)
    (h : alGet d k = some v) : (k, v) ∈ d := by
  induction d with
  | nil => simp [alGet] at h
  | cons p rest ih =>
    rcases p with ⟨k1, v1⟩
    by_cases hp : k1 = k
    · subst hp
      have h2 : v1 = v := by simpa [alGet] using h
      subst h2
      exact List.mem_cons_self _ _
    · simp only [alGet, if_neg hp] at h
      exact List.mem_cons_of_mem _ (ih h)

theorem allStr_alSet_str (d : Dict) (k s : String) (h : allStr d) :
    allStr (alSet d k (PyVal.str s)) := by
  intro p hp
  rcases mem_alSet d k (PyVal.str s) p hp with h1 | h1
  · exact h p h1
  · rw [h1]
    rfl

theorem allStr_get (d : Dict) (k : String) (v : PyVal) (h : allStr d)
    (hg : alGet d k = some v) : isStr v = true :=
  h (k, v) (alGet_mem d k v hg)

theorem dictEq_refl (a : Dict) : dictEq a a = true := by
  simp [dictEq, List.all_eq_true]

theorem dictEq_false_of_ne (a b : Dict) (p : String × PyVal) (hp : p ∈ a)
    (h : alGet a p.1 ≠ alGet b p.1) : dictEq a b = false := by
  apply Bool.eq_false_iff.mpr
  intro hcontra
  simp only [dictEq, Bool.and_eq_true, List.all_eq_true, decide_eq_true_eq] at hcontra
  exact h (hcontra.1 p hp)

theorem memB_iff {α : Type} [DecidableEq α] (x : α) (l : List α) :
    memB x l = true ↔ x ∈ l := by
  simp [memB, List.any_eq_true]

theorem get?_isSome_of_lt {α : Type} (l : List α) (i : Nat) (h : i < l.length) :
    ∃ a, l.get? i = some a := by
  induction l generalizing i with
  | nil => simp at h
  | cons a rest ih =>
    cases i with
    | zero => exact ⟨a, rfl⟩
    | succ i =>
      have := ih i (by simpa using Nat.lt_of_succ_lt_succ h)
      simpa [List.get?] using this

theorem get?_set_self {α : Type} (l : List α) (i : Nat) (a : α) (h : i < l.length) :
    (l.set i a).get? i = some a := by
  induction l generalizing i with
  | nil => simp at h
  | cons b rest ih =>
    cases i with
    | zero => rfl
    | succ i =>
      simpa [List.set, List.get?] using ih i (Nat.lt_of_succ_lt_succ h)

theorem get?_set_ne {α : Type} (l : List α) (i j : Nat) (a : α) (h : i ≠ j) :
    (l.set i a).get? j = l.get? j := by
  induction l generalizing i j with
  | nil => simp
  | cons b rest ih =>
    cases i with
    | zero =>
      cases j with
      | zero => exact absurd rfl h
      | succ j => rfl
    | succ i =>
      cases j with
      | zero => rfl
      | succ j =>
        simpa [List.set, List.get?] using ih i j (fun hh => h (by rw [hh]))

theorem list_eq_of_get? {α : Type} (l1 l2 : List α) (h : ∀ i, l1.get? i = l2.get? i) :
    l1 = l2 := by
  induction l1 generalizing l2 with
  | nil =>
    cases l2 with
    | nil => rfl
    | cons b rest => exact absurd (h 0).symm (by simp)
  | cons a rest ih =>
    cases l2 with
    | nil => exact absurd (h 0) (by simp)
    | cons b rest2 =>
      have h0 : a = b := by simpa using h 0
      have htail : rest = rest2 := ih rest2 (fun i => by simpa [List.get?] using h (i + 1))
      rw [h0, htail]

/-- The positional id assignment as the spec describes it: the record at
0-based position i gets id i + 1 (offset by the start position j). -/
def withPosIdsFrom (j : Nat) : List Dict → List Dict
  | [] => []
  | r :: rest => alSet r "id" (PyVal.int ((j : Int) + 1)) :: withPosIdsFrom (j + 1) rest

/-- Positional 1-based id assignment over a whole record list. -/
def withPosIds (l : List Dict) : List Dict := withPosIdsFrom 0 l

theorem withPosIdsFrom_get? (l : List Dict) (j i : Nat) :
    (withPosIdsFrom j l).get? i =
      (l.get? i).map (fun r => alSet r "id" (PyVal.int ((j : Int) + (i : Int) + 1))) := by
  induction l generalizing j i with
  | nil => simp [withPosIdsFrom]
  | cons r rest ih =>
    cases i with
    | zero => simp [withPosIdsFrom, List.get?]
    | succ i =>
      have := ih (j + 1) i
      simp only [withPosIdsFrom, List.get?]
      rw [this]
      have harith : ((j + 1 : Nat) : Int) + (i : Int) + 1 = (j : Int) + ((i + 1 : Nat) : Int) + 1 := by
        push_cast
        ring
      rw [harith]

theorem listIndex_spec (l : List Dict) (x : Dict) (j : Nat)
    (hj : l.get? j = some x)
    (hlt : ∀ i, i < j → ∀ d, l.get? i = some d → dictEq d x = false) :
    listIndex l x = j := by
  induction l generalizing j with
  | nil => simp [List.get?] at hj
  | cons d rest ih =>
    cases j with
    | zero =>
      have hd : d = x := by simpa [List.get?] using hj
      simp [listIndex, hd, dictEq_refl]
    | succ j =>
      have hne : dictEq d x = false := hlt 0 (Nat.succ_pos j) d rfl
      have htail : listIndex rest x = j := by
        apply ih
        · simpa [List.get?] using hj
        · intro i hi e he
          exact hlt (i + 1) (Nat.succ_lt_succ hi) e (by simpa [List.get?] using he)
      simp [listIndex, hne, htail]

/-- A record all of whose values are strings can never equal a record whose
id field has already been overwritten with an integer. -/
theorem dictEq_assigned_false (r0 x : Dict) (v : Int) (hx : allStr x) :
    dictEq (alSet r0 "id" (PyVal.int v)) x = false := by
  have hget : alGet (alSet r0 "id" (PyVal.int v)) "id" = some (PyVal.int v) :=
    alGet_alSet_self r0 "id" (PyVal.int v)
  apply dictEq_false_of_ne _ _ ("id", PyVal.int v) (alGet_mem _ _ _ hget)
  rw [hget]
  intro hcontra
  match hx2 : alGet x "id" with
  | none => rw [hx2] at hcontra; exact Option.noConfusion hcontra
  | some w =>
    rw [hx2] at hcontra
    have hw : w = PyVal.int v := by
      have := hcontra.symm
      simpa using this
    have := allStr_get x "id" w hx hx2
    rw [hw] at this
    simp [isStr] at this

theorem assignFrom_spec (fuel : Nat) :
    ∀ (j : Nat) (orig cur : List Dict),
      (∀ r ∈ orig, allStr r) →
      cur.length = orig.length →
      j + fuel = orig.length →
      (∀ i, i < j →
        cur.get? i = (orig.get? i).map (fun r => alSet r "id" (PyVal.int ((i : Int) + 1)))) →
      (∀ i, j ≤ i → cur.get? i = orig.get? i) →
      assignFrom cur j fuel = withPosIds orig := by
  induction fuel with
  | zero =>
    intro j orig cur hstr hlen hj hlo hhi
    simp only [assignFrom]
    apply list_eq_of_get?
    intro i
    by_cases hi : i < j
    · rw [hlo i hi, withPosIds, withPosIdsFrom_get?]
      simp
    · have hge : j ≤ i := Nat.le_of_not_lt hi
      have h1 : cur.get? i = orig.get? i := hhi i hge
      have h2 : orig.get? i = none := by
        apply List.get?_eq_none.mpr
        omega
      rw [h1, h2, withPosIds, withPosIdsFrom_get?, h2]
      rfl
  | succ fuel ih =>
    intro j orig cur hstr hlen hj hlo hhi
    have hjlt : j < orig.length := by omega
    obtain ⟨r, hr⟩ := get?_isSome_of_lt orig j hjlt
    have hcurj : cur.get? j = some r := by rw [hhi j (Nat.le_refl j), hr]
    have hrmem : r ∈ orig := List.get?_mem hr
    have hridx : listIndex cur r = j := by
      apply listIndex_spec cur r j hcurj
      intro i hi d hd
      have hio : i < orig.length := by omega
      obtain ⟨oi, hoi⟩ := get?_isSome_of_lt orig i hio
      have : cur.get? i = some (alSet oi "id" (PyVal.int ((i : Int) + 1))) := by
        rw [hlo i hi, hoi]
        rfl
      rw [this] at hd
      have hd2 : d = alSet oi "id" (PyVal.int ((i : Int) + 1)) := by
        simpa using hd.symm
      rw [hd2]
      exact dictEq_assigned_false oi r _ (hstr r hrmem)
    have hstep : assignStep cur j =
        cur.set j (alSet r "id" (PyVal.int ((j : Int) + 1))) := by
      simp only [assignStep, hcurj, hridx]
    simp only [assignFrom, hstep]
    apply ih (j + 1) orig _ hstr (by simpa using hlen) (by omega)
    · intro i hi
      by_cases hij : i = j
      · subst hij
        rw [get?_set_self _ _ _ (by omega), hr]
        rfl
      · rw [get?_set_ne _ _ _ _ (fun hh => hij hh.symm)]
        exact hlo i (by omega)
    · intro i hi
      rw [get?_set_ne _ _ _ _ (by omega)]
      exact hhi i (by omega)

/-- On loader-normalized input (all record values are strings) the
id-assignment loop is exactly positional 1-based assignment. -/
theorem assignIds_eq (l : List Dict) (h : ∀ r ∈ l, allStr r) :
    assignIds l = withPosIds l := by
  apply assignFrom_spec l.length 0 l l h rfl (by omega)
  · intro i hi
    exact absurd hi (Nat.not_lt_zero i)
  · intro i _
    rfl

theorem mem_flattenWithCat (m : List (String × List Dict)) (r : Dict)
    (h : r ∈ flattenWithCat m) :
    ∃ p ∈ m, ∃ q ∈ p.2, r = alSet q "category" (PyVal.str p.1) := by
  simp only [flattenWithCat, List.mem_flatten, List.mem_map] at h
  obtain ⟨l, ⟨p, hp, rfl⟩, hr⟩ := h
  obtain ⟨q, hq, rfl⟩ := List.mem_map.mp hr
  exact ⟨p, hp, q, hq, rfl⟩

theorem allStr_flattenWithCat (m : List (String × List Dict))
    (hstr : ∀ p ∈ m, ∀ r ∈ p.2, allStr r) :
    ∀ r ∈ flattenWithCat m, allStr r := by
  intro r hr
  obtain ⟨p, hp, q, hq, rfl⟩ := mem_flattenWithCat m r hr
  exact allStr_alSet_str _ _ _ (hstr p hp q hq)

/-- The 1-based sequential ids for n consecutive positions starting at
position j. -/
def idsFrom : Nat → Nat → List Int
  | _, 0 => []
  | j, n + 1 => ((j : Int) + 1) :: idsFrom (j + 1) n

theorem mem_idsFrom (n : Nat) : ∀ (j : Nat) (x : Int),
    x ∈ idsFrom j n ↔ ((j : Int) < x ∧ x ≤ (j : Int) + (n : Int)) := by
  induction n with
  | zero =>
    intro j x
    simp [idsFrom]
  | succ n ih =>
    intro j x
    simp only [idsFrom, List.mem_cons, ih (j + 1)]
    push_cast
    omega

theorem nodup_idsFrom (n : Nat) : ∀ j : Nat, (idsFrom j n).Nodup := by
  induction n with
  | zero =>
    intro j
    simp [idsFrom]
  | succ n ih =>
    intro j
    refine List.nodup_cons.mpr ⟨?_, ih (j + 1)⟩
    intro hmem
    rw [mem_idsFrom] at hmem
    push_cast at hmem
    omega

theorem withPosIdsFrom_map_ids (l : List Dict) : ∀ j : Nat,
    (withPosIdsFrom j l).map (fun r => (alGet r "id").getD (PyVal.int 0)) =
      (idsFrom j l.length).map PyVal.int := by
  induction l with
  | nil =>
    intro j
    rfl
  | cons r rest ih =>
    intro j
    simp only [withPosIdsFrom, List.map_cons, List.length_cons, idsFrom]
    rw [alGet_alSet_self]
    simp [ih (j + 1)]

/-- The candidate id list the dedup step reports, as PyVal ints. -/
def candIds (n : Nat) : List PyVal := (idsFrom 0 n).map PyVal.int

/-- Full characterization of utils.query_existing_data on a dict batch and a
live session, for loader-normalized records: the record list is the ordered
flattening with category attached and positional 1-based ids, the candidate
ids are 1..n, and the existing rows are those of the store whose id is a
candidate id. -/
theorem query_spec (m : List (String × List Dict)) (rows : List Quote)
    (hstr : ∀ p ∈ m, ∀ r ∈ p.2, allStr r) :
    query_existing_data (PyData.dict m) (DbHandle.session rows) =
      Except.ok
        { existing_data :=
            rows.filter (fun q => memB (PyVal.int q.id) (candIds (flattenWithCat m).length))
          existing_ids :=
            (rows.filter
              (fun q => memB (PyVal.int q.id) (candIds (flattenWithCat m).length))).map
              Quote.id
          record_list := withPosIds (flattenWithCat m)
          record_ids := candIds (flattenWithCat m).length } := by
  simp only [query_existing_data]
  rw [assignIds_eq _ (allStr_flattenWithCat m hstr)]
  rw [withPosIds, withPosIdsFrom_map_ids]
  rfl

/-- The skip test of the import loop in isolation: is this record's id
already among the existing ids. -/
def skipRec (ex : List Int) (r : Dict) : Bool :=
  match alGet r "id" with
  | some (PyVal.int k) => memB k ex
  | _ => false

/-- The rows the import loop inserts: in order, the candidate records whose
assigned id is not in the existing id set. -/
def insertedOf (records : List Dict) (ex : List Int) : List Quote :=
  records.filterMap (fun r => if skipRec ex r then none else (buildQuote r).toOption)

/-- A record the import loop processes without raising: an integer id and
the four Quote fields extractable. -/
def goodRec (r : Dict) : Prop :=
  (∃ k, alGet r "id" = some (PyVal.int k)) ∧ ∃ q, buildQuote r = Except.ok q

theorem importLoop_spec (records : List Dict) (ex : List Int) :
    ∀ (db : List Quote) (n : Nat), (∀ r ∈ records, goodRec r) →
      importLoop records ex db n =
        Except.ok (db ++ insertedOf records ex,
          n + (records.filter (fun r => !(skipRec ex r))).length) := by
  induction records with
  | nil =>
    intro db n _
    simp [importLoop, insertedOf]
  | cons r rest ih =>
    intro db n hgood
    obtain ⟨⟨k, hk⟩, ⟨q, hq⟩⟩ := hgood r (List.mem_cons_self _ _)
    have hrest : ∀ x ∈ rest, goodRec x := fun x hx => hgood x (List.mem_cons_of_mem _ hx)
    have hskip : skipRec ex r = memB k ex := by simp [skipRec, hk]
    simp only [importLoop, getField, hk]
    by_cases hmem : memB k ex = true
    · rw [if_pos hmem, ih db n hrest]
      simp [insertedOf, List.filterMap_cons, hskip, hmem, List.filter_cons]
    · have hfalse : memB k ex = false := Bool.eq_false_iff.mpr hmem
      rw [if_neg hmem, hq]
      show importLoop rest ex (db ++ [q]) (n + 1) = _
      rw [ih (db ++ [q]) (n + 1) hrest]
      simp only [insertedOf, List.filterMap_cons, hskip, hfalse, Bool.false_eq_true,
        if_false, hq, Except.toOption, List.filter_cons, Bool.not_false, if_true,
        List.length_cons]
      rw [List.append_assoc]
      simp only [List.singleton_append, Except.ok.injEq, Prod.mk.injEq, true_and]
      omega

theorem mem_withPosIdsFrom (l : List Dict) : ∀ (j : Nat) (r : Dict),
    r ∈ withPosIdsFrom j l → ∃ q ∈ l, ∃ v : Int, r = alSet q "id" (PyVal.int v) := by
  induction l with
  | nil =>
    intro j r h
    simp [withPosIdsFrom] at h
  | cons a rest ih =>
    intro j r h
    rcases List.mem_cons.mp h with h1 | h1
    · exact ⟨a, List.mem_cons_self _ _, (j : Int) + 1, h1⟩
    · obtain ⟨q, hq, v, hv⟩ := ih (j + 1) r h1
      exact ⟨q, List.mem_cons_of_mem _ hq, v, hv⟩

theorem buildQuote_eq (r : Dict) (c a qs : String) (k : Int)
    (hc : alGet r "category" = some (PyVal.str c))
    (hk : alGet r "id" = some (PyVal.int k))
    (ha : alGet r "author" = some (PyVal.str a))
    (hq : alGet r "quote" = some (PyVal.str qs)) :
    buildQuote r = Except.ok { id := k, category := c, author := a, quote := qs } := by
  simp [buildQuote, getStrField, getIntField, hc, hk, ha, hq]

/-- Every record the dedup step hands to the import loop is processable,
for loader-normalized batches whose records carry quote and author. -/
theorem goodRec_flatten (m : List (String × List Dict))
    (hstr : ∀ p ∈ m, ∀ r ∈ p.2, allStr r)
    (hqa : ∀ p ∈ m, ∀ r ∈ p.2, (alGet r "quote").isSome ∧ (alGet r "author").isSome) :
    ∀ r ∈ withPosIds (flattenWithCat m), goodRec r := by
  intro r hr
  obtain ⟨fr, hfr, v, rfl⟩ := mem_withPosIdsFrom (flattenWithCat m) 0 r hr
  obtain ⟨p, hp, q0, hq0, rfl⟩ := mem_flattenWithCat m fr hfr
  have hid : alGet (alSet (alSet q0 "category" (PyVal.str p.1)) "id" (PyVal.int v)) "id" =
      some (PyVal.int v) := alGet_alSet_self _ _ _
  have hcat : alGet (alSet (alSet q0 "category" (PyVal.str p.1)) "id" (PyVal.int v))
      "category" = some (PyVal.str p.1) := by
    rw [alGet_alSet_ne _ _ _ _ (by decide)]
    exact alGet_alSet_self _ _ _
  have hauth : ∃ s, alGet (alSet (alSet q0 "category" (PyVal.str p.1)) "id" (PyVal.int v))
      "author" = some (PyVal.str s) := by
    obtain ⟨w, hw⟩ := Option.isSome_iff_exists.mp (hqa p hp q0 hq0).2
    have hws := allStr_get q0 "author" w (hstr p hp q0 hq0) hw
    match w, hws with
    | PyVal.str s, _ =>
      refine ⟨s, ?_⟩
      rw [alGet_alSet_ne _ _ _ _ (by decide), alGet_alSet_ne _ _ _ _ (by decide)]
      exact hw
  have hquot : ∃ s, alGet (alSet (alSet q0 "category" (PyVal.str p.1)) "id" (PyVal.int v))
      "quote" = some (PyVal.str s) := by
    obtain ⟨w, hw⟩ := Option.isSome_iff_exists.mp (hqa p hp q0 hq0).1
    have hws := allStr_get q0 "quote" w (hstr p hp q0 hq0) hw
    match w, hws with
    | PyVal.str s, _ =>
      refine ⟨s, ?_⟩
      rw [alGet_alSet_ne _ _ _ _ (by decide), alGet_alSet_ne _ _ _ _ (by decide)]
      exact hw
  obtain ⟨sa, hsa⟩ := hauth
  obtain ⟨sq, hsq⟩ := hquot
  exact ⟨⟨v, hid⟩, ⟨_, buildQuote_eq _ _ _ _ _ hcat hid hsa hsq⟩⟩

theorem length_withPosIdsFrom (l : List Dict) : ∀ j, (withPosIdsFrom j l).length = l.length := by
  induction l with
  | nil => intro j; rfl
  | cons r rest ih =>
    intro j
    simp [withPosIdsFrom, ih (j + 1)]

theorem length_idsFrom (n : Nat) : ∀ j, (idsFrom j n).length = n := by
  induction n with
  | zero => intro j; rfl
  | succ n ih =>
    intro j
    simp [idsFrom, ih (j + 1)]

theorem filter_skip_withPosIds (ex : List Int) (l : List Dict) : ∀ j,
    ((withPosIdsFrom j l).filter (fun r => !(skipRec ex r))).length =
      ((idsFrom j l.length).filter (fun k => !(memB k ex))).length := by
  induction l with
  | nil => intro j; rfl
  | cons r rest ih =>
    intro j
    have hsk : skipRec ex (alSet r "id" (PyVal.int ((j : Int) + 1))) = memB ((j : Int) + 1) ex := by
      simp [skipRec, alGet_alSet_self]
    simp only [withPosIdsFrom, List.length_cons, idsFrom, List.filter_cons, hsk]
    by_cases h : memB ((j : Int) + 1) ex = true
    · simp [h, ih (j + 1)]
    · have hf : memB ((j : Int) + 1) ex = false := Bool.eq_false_iff.mpr h
      simp [hf, ih (j + 1)]

theorem length_filter_compl {α : Type} (p : α → Bool) (l : List α) :
    (l.filter (fun a => !(p a))).length + (l.filter p).length = l.length := by
  induction l with
  | nil => rfl
  | cons a rest ih =>
    by_cases h : p a = true
    · simp [List.filter_cons, h]
      omega
    · have hf : p a = false := Bool.eq_false_iff.mpr h
      simp [List.filter_cons, hf]
      omega

theorem length_filter_memB_of_sub (cand ex : List Int) (hc : cand.Nodup)
    (he : ex.Nodup) (hsub : ∀ x ∈ ex, x ∈ cand) :
    (cand.filter (fun k => memB k ex)).length = ex.length := by
  have hnd : (cand.filter (fun k => memB k ex)).Nodup := hc.filter _
  have hfs : (cand.filter (fun k => memB k ex)).toFinset = ex.toFinset := by
    ext a
    simp only [List.mem_toFinset, List.mem_filter, memB_iff]
    exact ⟨fun h => h.2, fun h => ⟨hsub a h, h⟩⟩
  have h1 := List.toFinset_card_of_nodup hnd
  have h2 := List.toFinset_card_of_nodup he
  rw [hfs] at h1
  omega

/-- The existing-id list the dedup step reports, for a given store and
candidate count. -/
def existingIdsOf (rows : List Quote) (n : Nat) : List Int :=
  (rows.filter (fun q => memB (PyVal.int q.id) (candIds n))).map Quote.id

theorem nodup_existingIdsOf (rows : List Quote) (n : Nat)
    (hnd : (rows.map Quote.id).Nodup) : (existingIdsOf rows n).Nodup := by
  have hsub : (rows.filter (fun q => memB (PyVal.int q.id) (candIds n))).Sublist rows :=
    List.filter_sublist _
  exact List.Nodup.sublist (hsub.map Quote.id) hnd

theorem existingIdsOf_sub (rows : List Quote) (n : Nat) :
    ∀ x ∈ existingIdsOf rows n, x ∈ idsFrom 0 n := by
  intro x hx
  obtain ⟨q, hq, rfl⟩ := List.mem_map.mp hx
  have hmem := (List.mem_filter.mp hq).2
  rw [memB_iff] at hmem
  obtain ⟨y, hy, hxy⟩ := List.mem_map.mp hmem
  have hyq : y = q.id := by simpa using hxy
  rw [← hyq]
  exact hy

theorem existingIdsOf_all_cand (rows : List Quote) (n : Nat) :
    ∀ x ∈ existingIdsOf rows n, memB (PyVal.int x) (candIds n) = true := by
  intro x hx
  obtain ⟨q, hq, rfl⟩ := List.mem_map.mp hx
  exact (List.mem_filter.mp hq).2

/-- cli.import_quotes on a loader-normalized batch and a live session:
the final table is the old rows followed by exactly the candidate records
whose assigned id is not among the existing ids, and the echoed count is
the number of such records. -/
theorem import_ok (m : List (String × List Dict)) (rows : List Quote)
    (hstr : ∀ p ∈ m, ∀ r ∈ p.2, allStr r)
    (hqa : ∀ p ∈ m, ∀ r ∈ p.2, (alGet r "quote").isSome ∧ (alGet r "author").isSome) :
    import_quotes (PyData.dict m) (DbHandle.session rows) =
      (rows ++ insertedOf (withPosIds (flattenWithCat m))
          (existingIdsOf rows (flattenWithCat m).length),
        [Res.importSuccess
          (((withPosIds (flattenWithCat m)).filter
            (fun r => !(skipRec (existingIdsOf rows (flattenWithCat m).length) r))).length)]) := by
  have hq := query_spec m rows hstr
  have hl := importLoop_spec (withPosIds (flattenWithCat m))
    (existingIdsOf rows (flattenWithCat m).length) rows 0 (goodRec_flatten m hstr hqa)
  simp only [existingIdsOf] at hl
  simp only [import_quotes, hq, existingIdsOf, hl, Nat.zero_add]

/-- The echoed count rewritten as the claim states it: total candidates
minus the size of the intersection of existing and candidate ids. -/
theorem import_count_eq (m : List (String × List Dict)) (rows : List Quote)
    (hnd : (rows.map Quote.id).Nodup) :
    (((withPosIds (flattenWithCat m)).filter
      (fun r => !(skipRec (existingIdsOf rows (flattenWithCat m).length) r))).length) =
      (withPosIds (flattenWithCat m)).length -
        ((existingIdsOf rows (flattenWithCat m).length).filter
          (fun i => memB (PyVal.int i) (candIds (flattenWithCat m).length))).length := by
  set n := (flattenWithCat m).length with hn
  set E := existingIdsOf rows n with hE
  have h1 : ((withPosIds (flattenWithCat m)).filter (fun r => !(skipRec E r))).length =
      ((idsFrom 0 n).filter (fun k => !(memB k E))).length := by
    rw [withPosIds, filter_skip_withPosIds, hn]
  have h2 : ((idsFrom 0 n).filter (fun k => !(memB k E))).length +
      ((idsFrom 0 n).filter (fun k => memB k E)).length = n := by
    rw [length_filter_compl, length_idsFrom]
  have h3 : ((idsFrom 0 n).filter (fun k => memB k E)).length = E.length :=
    length_filter_memB_of_sub (idsFrom 0 n) E (nodup_idsFrom n 0)
      (nodup_existingIdsOf rows n hnd) (existingIdsOf_sub rows n)
  have h4 : E.filter (fun i => memB (PyVal.int i) (candIds n)) = E :=
    List.filter_eq_self.mpr (existingIdsOf_all_cand rows n)
  have h5 : (withPosIds (flattenWithCat m)).length = n := by
    rw [withPosIds, length_withPosIdsFrom, hn]
  rw [h1, h4, h5]
  omega

/-- C1: for every loader-normalized import batch and every store state with
duplicate-free ids, the import command inserts exactly those candidate
records whose assigned id is not in existing_ids (the insertedOf list, in
order), commits once (the single returned table), and the reported count
equals the length of record_list minus the size of the intersection of
existing_ids with the candidate record_ids. -/
theorem import_inserts_new_records (m : List (String × List Dict)) (rows : List Quote)
    (hstr : ∀ p ∈ m, ∀ r ∈ p.2, allStr r)
    (hqa : ∀ p ∈ m, ∀ r ∈ p.2, (alGet r "quote").isSome ∧ (alGet r "author").isSome)
    (hnd : (rows.map Quote.id).Nodup) :
    ∃ res, query_existing_data (PyData.dict m) (DbHandle.session rows) = Except.ok res ∧
      import_quotes (PyData.dict m) (DbHandle.session rows) =
        (rows ++ insertedOf res.record_list res.existing_ids,
          [Res.importSuccess
            (res.record_list.length -
              (res.existing_ids.filter (fun i => memB (PyVal.int i) res.record_ids)).length)]) := by
  refine ⟨_, query_spec m rows hstr, ?_⟩
  rw [import_ok m rows hstr hqa]
  have hc := import_count_eq m rows hnd
  simp only [existingIdsOf] at hc
  simp only [existingIdsOf, hc]

/-- C1 witness: a two-record batch against a store already holding id 1;
only the second record is inserted and the count is 2 - 1 = 1. -/
theorem import_inserts_new_records_app :
    ∃ res,
      query_existing_data
          (PyData.dict
            [("cat",
              [[("quote", PyVal.str "q1"), ("author", PyVal.str "a1")],
                [("quote", PyVal.str "q2"), ("author", PyVal.str "a2")]])])
          (DbHandle.session [{ id := 1, category := "old", author := "oa", quote := "oq" }]) =
        Except.ok res ∧
      import_quotes
          (PyData.dict
            [("cat",
              [[("quote", PyVal.str "q1"), ("author", PyVal.str "a1")],
                [("quote", PyVal.str "q2"), ("author", PyVal.str "a2")]])])
          (DbHandle.session [{ id := 1, category := "old", author := "oa", quote := "oq" }]) =
        ([{ id := 1, category := "old", author := "oa", quote := "oq" }] ++
            insertedOf res.record_list res.existing_ids,
          [Res.importSuccess
            (res.record_list.length -
              (res.existing_ids.filter (fun i => memB (PyVal.int i) res.record_ids)).length)]) :=
  import_inserts_new_records _ _ (by decide) (by decide) (by decide)

/-- C2: the deduplication resolver flattens the batch to one ordered list
(category order, then record order) with the originating category attached,
and assigns each record id = flattened position + 1, independent of the
store rows and of any id field already present in a record. -/
theorem dedup_assigns_positional_ids (m : List (String × List Dict)) (rows : List Quote)
    (hstr : ∀ p ∈ m, ∀ r ∈ p.2, allStr r) :
    ∃ res, query_existing_data (PyData.dict m) (DbHandle.session rows) = Except.ok res ∧
      res.record_list = withPosIds (flattenWithCat m) ∧
      res.record_ids = (idsFrom 0 (flattenWithCat m).length).map PyVal.int :=
  ⟨_, query_spec m rows hstr, rfl, rfl⟩

/-- C2 witness: a record already carrying id "99" and a store already
holding id 1 still produce positional ids 1 and 2. -/
theorem dedup_assigns_positional_ids_app :
    ∃ res,
      query_existing_data
          (PyData.dict
            [("c",
              [[("quote", PyVal.str "x"), ("author", PyVal.str "y"), ("id", PyVal.str "99")],
                [("quote", PyVal.str "z"), ("author", PyVal.str "w")]])])
          (DbHandle.session [{ id := 1, category := "c", author := "y", quote := "x" }]) =
        Except.ok res ∧
      res.record_list =
        withPosIds
          (flattenWithCat
            [("c",
              [[("quote", PyVal.str "x"), ("author", PyVal.str "y"), ("id", PyVal.str "99")],
                [("quote", PyVal.str "z"), ("author", PyVal.str "w")]])]) ∧
      res.record_ids =
        (idsFrom 0
          (flattenWithCat
            [("c",
              [[("quote", PyVal.str "x"), ("author", PyVal.str "y"), ("id", PyVal.str "99")],
                [("quote", PyVal.str "z"), ("author", PyVal.str "w")]])]).length).map
          PyVal.int :=
  dedup_assigns_positional_ids _ _ (by decide)

/-- C8: the deduplication resolver raises an input-validation error when the
batch is not a dict, and when the store handle is not a session object, in
that order of checks; in both cases no query runs and no result dict is
returned (the outcome is an error, uniformly in the other argument). -/
theorem query_existing_data_validates_inputs (db : DbHandle)
    (m : List (String × List Dict)) :
    query_existing_data PyData.notDict db =
        Except.error "Invalid data format. Data argument must be a dictionary" ∧
      query_existing_data (PyData.dict m) DbHandle.invalid =
        Except.error
          "Invalid database session. Database session must be a sqlalchemy session object" :=
  ⟨rfl, rfl⟩

/-- C10: an add invocation with any blank argument inserts nothing, leaves
the store unchanged, and echoes the missing-arguments error result. -/
theorem add_rejects_blank_fields (db : List Quote) (category quote author : String)
    (h : category = "" ∨ quote = "" ∨ author = "") :
    add db category quote author = (db, [Res.addMissingArgs]) := by
  rcases h with h | h | h <;> subst h <;> simp [add]

/-- C10 witness: blank category. -/
theorem add_rejects_blank_fields_app :
    add [] "" "carpe diem" "horace" = ([], [Res.addMissingArgs]) :=
  add_rejects_blank_fields [] "" "carpe diem" "horace" (Or.inl rfl)

/-- C3 (code bug): with zero matching rows the list command samples first,
so random.choices raises IndexError and the generic database-operation
error is echoed instead of the dead not-found branch. -/
theorem list_empty_store_gives_db_error :
    list_quotes (fun _ => 0) [] none none =
      [Res.dbError "Error occurred during database operation: list index out of range"] :=
  rfl

/-- Structural form of cli.generate: the advisory echoes, then the sampling
tail over the rows matching the truthy filters. -/
theorem generate_eq (pick : Nat → Nat) (db : List Quote) (category author : Option String) :
    generate pick db category author =
      advisoryEchoes db category author ++
        genFrom pick (db.filter (matchesFilter category author)) := by
  by_cases hc : truthy category = true <;> by_cases ha : truthy author = true
  · have hf : db.filter (matchesFilter category author) =
        db.filter (fun q =>
          decide (q.category = pyLower (category.getD "")) &&
            decide (q.author = pyLower (author.getD ""))) :=
      List.filter_congr (fun q _ => by simp [matchesFilter, hc, ha])
    simp [generate, advisoryEchoes, hc, ha, hf]
  · have ha2 : truthy author = false := Bool.eq_false_iff.mpr ha
    have hf : db.filter (matchesFilter category author) =
        db.filter (fun q => decide (q.category = pyLower (category.getD ""))) :=
      List.filter_congr (fun q _ => by simp [matchesFilter, hc, ha2])
    simp [generate, advisoryEchoes, hc, ha2, hf]
  · have hc2 : truthy category = false := Bool.eq_false_iff.mpr hc
    have hf : db.filter (matchesFilter category author) =
        db.filter (fun q => decide (q.author = pyLower (author.getD ""))) :=
      List.filter_congr (fun q _ => by simp [matchesFilter, hc2, ha])
    simp [generate, advisoryEchoes, hc2, ha, hf]
  · have hc2 : truthy category = false := Bool.eq_false_iff.mpr hc
    have ha2 : truthy author = false := Bool.eq_false_iff.mpr ha
    have hf : db.filter (matchesFilter category author) = db :=
      List.filter_eq_self.mpr (fun q _ => by simp [matchesFilter, hc2, ha2])
    simp [generate, advisoryEchoes, hc2, ha2, hf]

/-- C4: whenever the filtered result set is empty, generate echoes only the
advisory existence-check output followed by the no-quotes error; the result
does not depend on the sampler, which is never reached. -/
theorem generate_empty_filter_returns_no_quotes (pick : Nat → Nat) (db : List Quote)
    (category author : Option String)
    (h : db.filter (matchesFilter category author) = []) :
    generate pick db category author =
      advisoryEchoes db category author ++ [Res.genNoQuotes] := by
  rw [generate_eq, h]
  rfl

/-- C4 witness: a category filter matching no rows of a one-row store. -/
theorem generate_empty_filter_returns_no_quotes_app :
    generate (fun _ => 0) [{ id := 1, category := "wisdom", author := "x", quote := "y" }]
        (some "other") none =
      advisoryEchoes [{ id := 1, category := "wisdom", author := "x", quote := "y" }]
          (some "other") none ++ [Res.genNoQuotes] :=
  generate_empty_filter_returns_no_quotes _ _ _ _ (by decide)

/-- C7: a generate invocation filtering on a category value absent from the
store echoes the advisory not-found error and still runs the filtered
query, whose empty result is handled by the empty-result path: both echoes
appear, in that order. -/
theorem generate_unknown_category_advisory (pick : Nat → Nat) (db : List Quote)
    (c : String) (hc : ¬(c = "")) (hmem : ¬(pyLower c ∈ db.map Quote.category)) :
    generate pick db (some c) none = [Res.genNotFoundCat (pyLower c), Res.genNoQuotes] := by
  have ht : truthy (some c) = true := by simp [truthy, hc]
  have hfilter : db.filter (fun q => decide (q.category = pyLower c)) = [] := by
    apply List.filter_eq_nil_iff.mpr
    intro q hq
    simp only [decide_eq_true_eq]
    intro hqc
    exact hmem (by rw [← hqc]; exact List.mem_map_of_mem Quote.category hq)
  have hdedup : memB (pyLower c) (distinctVals (db.map Quote.category)) = false := by
    apply Bool.eq_false_iff.mpr
    intro hcontra
    rw [memB_iff] at hcontra
    exact hmem (by simpa [distinctVals, List.mem_dedup] using hcontra)
  have hnone : truthy none = false := rfl
  simp [generate, ht, hnone, hdedup, hfilter, genFrom]

/-- C7 witness: category Nonexistent against a store with category wisdom. -/
theorem generate_unknown_category_advisory_app :
    generate (fun _ => 0) [{ id := 1, category := "wisdom", author := "x", quote := "y" }]
        (some "Nonexistent") none =
      [Res.genNotFoundCat (pyLower "Nonexistent"), Res.genNoQuotes] :=
  generate_unknown_category_advisory _ _ _ (by decide) (by decide)

/-- C5 counterexample: a nonexistent path that does not end in .json fails
with the path-existence error, not the input-format error the claim
requires for every non-.json path, because the existence check runs first. -/
theorem load_data_missing_non_json_counterexample :
    load_data { path := "quotes.txt", onDisk := false, content := JVal.jnull } =
        Except.error LoadError.invalidPath ∧
      LoadError.invalidPath ≠ LoadError.invalidFormat :=
  ⟨rfl, by decide⟩

/-- C5 amended: for every existing file whose path does not end in .json,
loading fails with the input-format error regardless of content, and for
every nonexistent path it fails with the path-existence error. -/
theorem load_data_path_and_format_checks (f : PyFile) :
    (f.onDisk = true → pyEndsWith f.path ".json" = false →
      load_data f = Except.error LoadError.invalidFormat) ∧
    (f.onDisk = false → load_data f = Except.error LoadError.invalidPath) := by
  constructor
  · intro h1 h2
    simp [load_data, h1, h2]
  · intro h1
    simp [load_data, h1]

/-- C5 witness: an existing .txt file with arbitrary content, and a missing
.json file. -/
theorem load_data_path_and_format_checks_app :
    load_data { path := "quotes.txt", onDisk := true, content := JVal.jnull } =
        Except.error LoadError.invalidFormat ∧
      load_data { path := "missing.json", onDisk := false, content := JVal.jnull } =
        Except.error LoadError.invalidPath :=
  ⟨(load_data_path_and_format_checks _).1 rfl rfl,
    (load_data_path_and_format_checks _).2 rfl⟩

theorem lowerRecords_nonempty (rs : List JVal) (lc : String) :
    ∀ (nd nd2 : Mapping) (il : List StrDict),
      lowerRecords lc rs nd il = Except.ok nd2 →
      (∀ p ∈ nd, p.2 ≠ []) → ∀ p ∈ nd2, p.2 ≠ [] := by
  induction rs with
  | nil =>
    intro nd nd2 il h hne
    simp only [lowerRecords, Except.ok.injEq] at h
    exact h ▸ hne
  | cons r rest ih =>
    intro nd nd2 il h hne
    cases r with
    | jobj entries =>
      simp only [lowerRecords] at h
      cases hlr : lowerRecord entries [] with
      | error e =>
        rw [hlr] at h
        exact absurd h (by simp)
      | ok item =>
        rw [hlr] at h
        refine ih _ _ _ h ?_
        intro p hp
        rcases mem_alSet _ _ _ p hp with h1 | h1
        · exact hne p h1
        · rw [h1]
          simp
    | jstr s =>
      exact absurd h (by simp [lowerRecords])
    | jnum n =>
      exact absurd h (by simp [lowerRecords])
    | jbool b =>
      exact absurd h (by simp [lowerRecords])
    | jnull =>
      exact absurd h (by simp [lowerRecords])
    | jarr l =>
      exact absurd h (by simp [lowerRecords])

theorem lowerRecords_get_ne (rs : List JVal) (lc : String) :
    ∀ (nd nd2 : Mapping) (il : List StrDict) (k : String),
      lowerRecords lc rs nd il = Except.ok nd2 → k ≠ lc →
      alGet nd2 k = alGet nd k := by
  induction rs with
  | nil =>
    intro nd nd2 il k h hk
    simp only [lowerRecords, Except.ok.injEq] at h
    rw [h]
  | cons r rest ih =>
    intro nd nd2 il k h hk
    cases r with
    | jobj entries =>
      simp only [lowerRecords] at h
      cases hlr : lowerRecord entries [] with
      | error e =>
        rw [hlr] at h
        exact absurd h (by simp)
      | ok item =>
        rw [hlr] at h
        rw [ih _ _ _ k h hk]
        exact alGet_alSet_ne _ _ _ _ hk
    | jstr s =>
      exact absurd h (by simp [lowerRecords])
    | jnum n =>
      exact absurd h (by simp [lowerRecords])
    | jbool b =>
      exact absurd h (by simp [lowerRecords])
    | jnull =>
      exact absurd h (by simp [lowerRecords])
    | jarr l =>
      exact absurd h (by simp [lowerRecords])

theorem lowerCats_nonempty (data : List (String × JVal)) :
    ∀ (nd m : Mapping), lowerCats data nd = Except.ok m →
      (∀ p ∈ nd, p.2 ≠ []) → ∀ p ∈ m, p.2 ≠ [] := by
  induction data with
  | nil =>
    intro nd m h hne
    simp only [lowerCats, Except.ok.injEq] at h
    exact h ▸ hne
  | cons entry rest ih =>
    intro nd m h hne
    rcases entry with ⟨cat, v⟩
    cases v with
    | jarr rs =>
      simp only [lowerCats] at h
      cases hlr : lowerRecords (pyLower cat) rs nd [] with
      | error e =>
        rw [hlr] at h
        exact absurd h (by simp)
      | ok nd2 =>
        rw [hlr] at h
        exact ih nd2 m h (lowerRecords_nonempty rs (pyLower cat) nd nd2 [] hlr hne)
    | jstr s =>
      exact absurd h (by simp [lowerCats])
    | jnum n =>
      exact absurd h (by simp [lowerCats])
    | jbool b =>
      exact absurd h (by simp [lowerCats])
    | jnull =>
      exact absurd h (by simp [lowerCats])
    | jobj l =>
      exact absurd h (by simp [lowerCats])

theorem lowerCats_absent (data : List (String × JVal)) :
    ∀ (nd m : Mapping) (ckey : String), lowerCats data nd = Except.ok m →
      alGet nd ckey = none →
      (∀ p ∈ data, pyLower p.1 = ckey → p.2 = JVal.jarr []) →
      alGet m ckey = none := by
  induction data with
  | nil =>
    intro nd m ckey h hnone _
    simp only [lowerCats, Except.ok.injEq] at h
    exact h ▸ hnone
  | cons entry rest ih =>
    intro nd m ckey h hnone hall
    rcases entry with ⟨cat, v⟩
    cases v with
    | jarr rs =>
      simp only [lowerCats] at h
      cases hlr : lowerRecords (pyLower cat) rs nd [] with
      | error e =>
        rw [hlr] at h
        exact absurd h (by simp)
      | ok nd2 =>
        rw [hlr] at h
        have hrest : ∀ p ∈ rest, pyLower p.1 = ckey → p.2 = JVal.jarr [] :=
          fun p hp => hall p (List.mem_cons_of_mem _ hp)
        by_cases hck : pyLower cat = ckey
        · have hempty : JVal.jarr rs = JVal.jarr [] :=
            hall (cat, JVal.jarr rs) (List.mem_cons_self _ _) hck
          have hrs : rs = [] := by injection hempty
          subst hrs
          have hnd2 : nd2 = nd := by
            simpa [lowerRecords] using hlr.symm
          subst hnd2
          exact ih _ m ckey h hnone hrest
        · have hget : alGet nd2 ckey = none := by
            rw [lowerRecords_get_ne rs (pyLower cat) nd nd2 [] ckey hlr
              (fun hh => hck hh.symm)]
            exact hnone
          exact ih nd2 m ckey h hget hrest
    | jstr s =>
      exact absurd h (by simp [lowerCats])
    | jnum n =>
      exact absurd h (by simp [lowerCats])
    | jbool b =>
      exact absurd h (by simp [lowerCats])
    | jnull =>
      exact absurd h (by simp [lowerCats])
    | jobj l =>
      exact absurd h (by simp [lowerCats])

/-- C9: for every input the lowercasing step accepts, no category of the
output mapping holds an empty record list, and a category all of whose
occurrences carry an empty record list is absent from the output: empty
categories are silently dropped, not preserved as empty lists. -/
theorem lower_data_drops_empty_categories (d : List (String × JVal)) (m : Mapping)
    (h : lower_data d = Except.ok m) :
    (∀ p ∈ m, p.2 ≠ []) ∧
    (∀ c, (c, JVal.jarr []) ∈ d →
      (∀ p ∈ d, pyLower p.1 = pyLower c → p.2 = JVal.jarr []) →
      alGet m (pyLower c) = none) := by
  constructor
  · exact lowerCats_nonempty d [] m h (by simp)
  · intro c _ hall
    exact lowerCats_absent d [] m (pyLower c) h rfl hall

/-- C9 witness: a single empty category Wisdom produces an output mapping
with no wisdom key at all. -/
theorem lower_data_drops_empty_categories_app :
    ∃ m, lower_data [("Wisdom", JVal.jarr [])] = Except.ok m ∧
      alGet m (pyLower "Wisdom") = none ∧ ∀ p ∈ m, p.2 ≠ [] :=
  ⟨[], rfl,
    (lower_data_drops_empty_categories [("Wisdom", JVal.jarr [])] [] rfl).2 "Wisdom"
      (List.mem_singleton.mpr rfl) (fun p hp _ => by rw [List.mem_singleton.mp hp]),
    (lower_data_drops_empty_categories [("Wisdom", JVal.jarr [])] [] rfl).1⟩

theorem isSome_alGet_alSet {α : Type} (d : List (String × α)) (k1 k : String) (v : α)
    (h : (alGet d k).isSome) : (alGet (alSet d k1 v) k).isSome := by
  by_cases hk : k = k1
  · subst hk
    rw [alGet_alSet_self]
    rfl
  · rw [alGet_alSet_ne _ _ _ _ hk]
    exact h

/-- A source record of the shape the external-interface section describes:
a JSON object with string fields, among them quote and author (an id field,
necessarily string-valued, may be present). -/
def goodRecord (r : JVal) : Prop :=
  ∃ entries, r = JVal.jobj entries ∧ (∀ p ∈ entries, ∃ s, p.2 = JVal.jstr s) ∧
    (∃ p ∈ entries, pyLower p.1 = "quote") ∧ (∃ p ∈ entries, pyLower p.1 = "author")

/-- A lowered record that still carries its quote and author fields. -/
def hasQA (it : StrDict) : Prop :=
  (alGet it "quote").isSome ∧ (alGet it "author").isSome

theorem lowerRecord_ok (entries : List (String × JVal)) :
    ∀ item, (∀ p ∈ entries, ∃ s, p.2 = JVal.jstr s) →
      ∃ item2, lowerRecord entries item = Except.ok item2 ∧
        ∀ k, ((∃ p ∈ entries, pyLower p.1 = k) ∨ (alGet item k).isSome) →
          (alGet item2 k).isSome := by
  induction entries with
  | nil =>
    intro item _
    refine ⟨item, rfl, ?_⟩
    intro k hk
    rcases hk with ⟨p, hp, _⟩ | hk
    · simp at hp
    · exact hk
  | cons p rest ih =>
    intro item hstr
    obtain ⟨s, hs⟩ := hstr p (List.mem_cons_self _ _)
    rcases p with ⟨k0, v0⟩
    simp only at hs
    subst hs
    obtain ⟨item2, hrec, hkeys⟩ :=
      ih (alSet item (pyLower k0) (pyLower s))
        (fun q hq => hstr q (List.mem_cons_of_mem _ hq))
    refine ⟨item2, hrec, ?_⟩
    intro k hk
    apply hkeys
    rcases hk with ⟨q, hq, hqk⟩ | hk
    · rcases List.mem_cons.mp hq with h1 | h1
      · right
        rw [← hqk, h1]
        rw [alGet_alSet_self]
        rfl
      · exact Or.inl ⟨q, h1, hqk⟩
    · exact Or.inr (isSome_alGet_alSet _ _ _ _ hk)

theorem lowerRecords_ok (rs : List JVal) (lc : String) :
    ∀ (nd : Mapping) (il : List StrDict),
      (∀ r ∈ rs, goodRecord r) →
      (∀ it ∈ il, hasQA it) →
      (∀ q ∈ nd, ∀ it ∈ q.2, hasQA it) →
      ∃ nd2, lowerRecords lc rs nd il = Except.ok nd2 ∧
        ∀ q ∈ nd2, ∀ it ∈ q.2, hasQA it := by
  induction rs with
  | nil =>
    intro nd il _ _ hnd
    exact ⟨nd, rfl, hnd⟩
  | cons r rest ih =>
    intro nd il hgood hil hnd
    obtain ⟨entries, hr, hstr, hq, ha⟩ := hgood r (List.mem_cons_self _ _)
    subst hr
    obtain ⟨item, hrec, hkeys⟩ := lowerRecord_ok entries [] hstr
    have hitem : hasQA item :=
      ⟨hkeys "quote" (Or.inl hq), hkeys "author" (Or.inl ha)⟩
    have hil2 : ∀ it ∈ il ++ [item], hasQA it := by
      intro it hit
      rcases List.mem_append.mp hit with h1 | h1
      · exact hil it h1
      · rw [List.mem_singleton.mp h1]
        exact hitem
    have hnd2 : ∀ q ∈ alSet nd lc (il ++ [item]), ∀ it ∈ q.2, hasQA it := by
      intro q hq2 it hit
      rcases mem_alSet _ _ _ q hq2 with h1 | h1
      · exact hnd q h1 it hit
      · rw [h1] at hit
        exact hil2 it hit
    obtain ⟨nd2, hrest, hnd3⟩ :=
      ih (alSet nd lc (il ++ [item])) (il ++ [item])
        (fun x hx => hgood x (List.mem_cons_of_mem _ hx)) hil2 hnd2
    refine ⟨nd2, ?_, hnd3⟩
    simp only [lowerRecords, hrec]
    exact hrest

theorem lowerCats_ok (data : List (String × JVal)) :
    ∀ nd : Mapping,
      (∀ p ∈ data, ∃ rs, p.2 = JVal.jarr rs ∧ ∀ r ∈ rs, goodRecord r) →
      (∀ q ∈ nd, ∀ it ∈ q.2, hasQA it) →
      ∃ m, lowerCats data nd = Except.ok m ∧ ∀ q ∈ m, ∀ it ∈ q.2, hasQA it := by
  induction data with
  | nil =>
    intro nd _ hnd
    exact ⟨nd, rfl, hnd⟩
  | cons entry rest ih =>
    intro nd hgood hnd
    obtain ⟨rs, hv, hrs⟩ := hgood entry (List.mem_cons_self _ _)
    rcases entry with ⟨cat, v⟩
    simp only at hv
    subst hv
    obtain ⟨nd2, hrec, hnd2⟩ := lowerRecords_ok rs (pyLower cat) nd [] hrs (by simp) hnd
    obtain ⟨m, hrest, hm⟩ :=
      ih nd2 (fun p hp => hgood p (List.mem_cons_of_mem _ hp)) hnd2
    refine ⟨m, ?_, hm⟩
    simp only [lowerCats, hrec]
    exact hrest

theorem alGet_strRec (r0 : StrDict) (k : String) :
    alGet (r0.map (fun q => (q.1, PyVal.str q.2))) k = (alGet r0 k).map PyVal.str := by
  induction r0 with
  | nil => rfl
  | cons p rest ih =>
    by_cases hp : p.1 = k
    · simp [alGet, hp]
    · simp [alGet, hp, ih]

theorem allStr_toDict (m : Mapping) : ∀ p ∈ toDict m, ∀ r ∈ p.2, allStr r := by
  intro p hp r hr
  obtain ⟨q, _, rfl⟩ := List.mem_map.mp hp
  obtain ⟨r0, _, rfl⟩ := List.mem_map.mp hr
  intro x hx
  obtain ⟨y, _, rfl⟩ := List.mem_map.mp hx
  rfl

theorem isSome_map_str (o : Option String) : (o.map PyVal.str).isSome = o.isSome := by
  cases o <;> rfl

theorem hasQA_toDict (m : Mapping) (hm : ∀ q ∈ m, ∀ it ∈ q.2, hasQA it) :
    ∀ p ∈ toDict m, ∀ r ∈ p.2,
      (alGet r "quote").isSome ∧ (alGet r "author").isSome := by
  intro p hp r hr
  obtain ⟨q, hq, rfl⟩ := List.mem_map.mp hp
  obtain ⟨r0, hr0, rfl⟩ := List.mem_map.mp hr
  obtain ⟨h1, h2⟩ := hm q hq r0 hr0
  rw [alGet_strRec, alGet_strRec, isSome_map_str, isSome_map_str]
  exact ⟨h1, h2⟩

/-- C6 counterexample: a record whose optional id field is a JSON number
makes lower_data raise (numbers have no .lower), so loading and the whole
batch fail, contradicting the claim that sources with an id field still
load. -/
theorem import_numeric_id_fails_loading :
    load_data
        { path := "quotes.json", onDisk := true,
          content := JVal.jobj [("c", JVal.jarr [JVal.jobj
            [("quote", JVal.jstr "x"), ("author", JVal.jstr "y"),
              ("id", JVal.jnum 1)]])] } =
      Except.error
        (LoadError.runtimeError "AttributeError: value has no attribute lower") ∧
    import_pipeline
        { path := "quotes.json", onDisk := true,
          content := JVal.jobj [("c", JVal.jarr [JVal.jobj
            [("quote", JVal.jstr "x"), ("author", JVal.jstr "y"),
              ("id", JVal.jnum 1)]])] }
        (DbHandle.session []) =
      ([], [Res.dbError
        "Error occurred during database operation: AttributeError: value has no attribute lower"]) :=
  ⟨rfl, rfl⟩

/-- C6 amended: for every import source whose records carry only string
field values (hence an optional id field must be a string), with quote and
author present, loading succeeds, the import succeeds, and deduplication
ignores the provided id: each record gets id = flattened position + 1. -/
theorem import_with_string_ids (path : String) (entries : List (String × JVal))
    (rows : List Quote)
    (hpath : pyEndsWith path ".json" = true)
    (hgood : ∀ p ∈ entries, ∃ rs, p.2 = JVal.jarr rs ∧ ∀ r ∈ rs, goodRecord r) :
    ∃ m, load_data { path := path, onDisk := true, content := JVal.jobj entries } =
        Except.ok m ∧
      ∃ res, query_existing_data (PyData.dict (toDict m)) (DbHandle.session rows) =
          Except.ok res ∧
        res.record_list = withPosIds (flattenWithCat (toDict m)) ∧
        ∃ n, import_pipeline
            { path := path, onDisk := true, content := JVal.jobj entries }
            (DbHandle.session rows) =
          (rows ++ insertedOf (withPosIds (flattenWithCat (toDict m)))
              (existingIdsOf rows (flattenWithCat (toDict m)).length),
            [Res.importSuccess n]) := by
  obtain ⟨m, hm, hP⟩ := lowerCats_ok entries [] hgood (by simp)
  have hload : load_data { path := path, onDisk := true, content := JVal.jobj entries } =
      Except.ok m := by
    simp [load_data, hpath, lower_data, hm]
  have hstr := allStr_toDict m
  have hqa := hasQA_toDict m hP
  refine ⟨m, hload, _, query_spec (toDict m) rows hstr, rfl, ?_⟩
  refine ⟨((withPosIds (flattenWithCat (toDict m))).filter
    (fun r =>
      !(skipRec (existingIdsOf rows (flattenWithCat (toDict m)).length) r))).length, ?_⟩
  simp only [import_pipeline, hload]
  exact import_ok (toDict m) rows hstr hqa

/-- C6 witness: a one-record source carrying id "7" as a string imports
into an empty store. -/
theorem import_with_string_ids_app :
    ∃ m, load_data
        { path := "quotes.json", onDisk := true,
          content := JVal.jobj [("c", JVal.jarr [JVal.jobj
            [("quote", JVal.jstr "Be Kind"), ("author", JVal.jstr "Anon"),
              ("id", JVal.jstr "7")]])] } =
        Except.ok m ∧
      ∃ res, query_existing_data (PyData.dict (toDict m)) (DbHandle.session []) =
          Except.ok res ∧
        res.record_list = withPosIds (flattenWithCat (toDict m)) ∧
        ∃ n, import_pipeline
            { path := "quotes.json", onDisk := true,
              content := JVal.jobj [("c", JVal.jarr [JVal.jobj
                [("quote", JVal.jstr "Be Kind"), ("author", JVal.jstr "Anon"),
                  ("id", JVal.jstr "7")]])] }
            (DbHandle.session []) =
          ([] ++ insertedOf (withPosIds (flattenWithCat (toDict m)))
              (existingIdsOf [] (flattenWithCat (toDict m)).length),
            [Res.importSuccess n]) := by
  apply import_with_string_ids
  · rfl
  · intro p hp
    rw [List.mem_singleton.mp hp]
    refine ⟨_, rfl, ?_⟩
    intro r hr
    rw [List.mem_singleton.mp hr]
    refine ⟨_, rfl, ?_, ⟨("quote", JVal.jstr "Be Kind"), by simp, by decide⟩,
      ⟨("author", JVal.jstr "Anon"), by simp, by decide⟩⟩
    intro q hq
    rcases List.mem_cons.mp hq with h1 | h1
    · exact ⟨"Be Kind", by rw [h1]⟩
    rcases List.mem_cons.mp h1 with h2 | h2
    · exact ⟨"Anon", by rw [h2]⟩
    · exact ⟨"7", by rw [List.mem_singleton.mp h2]⟩

end QuoteManager
